import Mathlib

/-!
# Settlers of Mars — verification of the session core

Shallow embedding of the session orchestration layer of the
"Settlers of Mars habitat exploration" repository:

* the data model of `types.ts` (`GameState`, `HabitatModule`, `ScenePayload`,
  `Scene`, `StoryLogEntry`);
* the session controller of `App.tsx` (`resetGame`, `handleApiCall`,
  `handleStartGame`, `handleChoice`), with the asynchronous pipeline call
  split into its begin phase and its completion phase, and the pipeline
  outcome passed in explicitly as an `Except`;
* the reply parsing step of `services/geminiService.ts` (`generateStory`),
  with the JavaScript runtime `JSON.parse` modelled as an explicit parse
  oracle parameter;
* the habitat layout algorithm of `components/GameUI.tsx` (the `layout`
  memo of `SceneContainer`), with the `Math.random()` draw for each
  module's starting angle modelled as an explicit seed oracle parameter.

Theorems about these definitions settle the specification claims.
-/

namespace SettlersOfMars

/-- `GameState` enum from `types.ts`. -/
inductive GameState where
  | START
  | LOADING
  | PLAYING
  | GAME_OVER
  | ERROR
deriving DecidableEq, Repr

/-- Module kind union `'shuttle' | 'biodome' | 'tunnel'` from `types.ts`. -/
inductive ModuleType where
  | shuttle
  | biodome
  | tunnel
deriving DecidableEq, Repr

/-- `HabitatModule` interface from `types.ts`.  `connectedToId?: string | null`
is modelled as `Option String`; the empty string is a distinct, JavaScript-falsy
value and is kept as `some ""`. -/
structure HabitatModule where
  id : String
  type : ModuleType
  connectedToId : Option String
deriving DecidableEq, Repr

/-- `Scene` interface from `types.ts` (`ScenePayload` plus the resolved
`imageUrl`). -/
structure Scene where
  story : String
  imagePrompt : String
  choices : List String
  newItem : Option String
  gameOver : Bool
  habitatStatus : String
  habitatModules : List HabitatModule
  imageUrl : String
deriving DecidableEq, Repr

/-- `StoryLogEntry` interface from `types.ts`. -/
structure StoryLogEntry where
  id : Nat
  story : String
deriving DecidableEq, Repr

/-- The React state hooks of `App.tsx`, gathered into one record:
`gameState`, `currentScene`, `storyLog`, `inventory`, `error`,
`lastAddedItem`. -/
structure Session where
  gameState : GameState
  currentScene : Option Scene
  storyLog : List StoryLogEntry
  inventory : List String
  error : Option String
  lastAddedItem : Option String
deriving DecidableEq, Repr

/-- The initial values of the `useState` hooks in `App.tsx`. -/
def initialSession : Session :=
  { gameState := GameState.START
    currentScene := none
    storyLog := []
    inventory := []
    error := none
    lastAddedItem := none }

/-- `resetGame` from `App.tsx`: sets every hook back to its initial value. -/
def resetGame (_s : Session) : Session := initialSession

/-- A pipeline invocation request: the `(history, choice)` argument pair of
`fetchNextScene`. -/
abbrev PipelineRequest := String × String

/-- The synchronous head of `handleApiCall` in `App.tsx`: `setError(null)`
and `setGameState(GameState.LOADING)`, executed before awaiting
`fetchNextScene`. -/
def beginApiCall (s : Session) : Session :=
  { s with error := none, gameState := GameState.LOADING }

/-- Model of the JavaScript `String.prototype.trim` runtime builtin used by
`handleApiCall`: remove leading and trailing whitespace characters.  (Lean's
own `String.trim` is equivalent but does not reduce in the kernel, so the
builtin is modelled directly over the character list.) -/
def jsTrim (s : String) : String :=
  ⟨((s.data.dropWhile Char.isWhitespace).reverse.dropWhile Char.isWhitespace).reverse⟩

/-- The inventory guard of `handleApiCall`:
`scene.newItem && scene.newItem.trim() !== "" && !inventory.includes(scene.newItem)`.
A `null` or empty `newItem` is JavaScript-falsy. -/
def shouldAddItem (inventory : List String) : Option String → Bool
  | none => false
  | some it => it != "" && jsTrim it != "" && !(inventory.contains it)

/-- The success branch of `handleApiCall` in `App.tsx`, applied once
`fetchNextScene` has resolved with `scene`: update the inventory and the
last-added marker, store the scene, and transition to `GAME_OVER` or
`PLAYING`. -/
def applySceneSuccess (s : Session) (scene : Scene) : Session :=
  let s1 :=
    match scene.newItem with
    | some it =>
        if it != "" && jsTrim it != "" && !(s.inventory.contains it) then
          { s with inventory := s.inventory ++ [it], lastAddedItem := some it }
        else
          { s with lastAddedItem := none }
    | none => { s with lastAddedItem := none }
  { s1 with
      currentScene := some scene
      gameState := if scene.gameOver then GameState.GAME_OVER else GameState.PLAYING }

/-- The catch branch of `handleApiCall` in `App.tsx`: store the error
message and transition to `ERROR`. -/
def applyFailure (s : Session) (msg : String) : Session :=
  { s with error := some msg, gameState := GameState.ERROR }

/-- The resolution of one in-flight `handleApiCall`, given the outcome of
the awaited `fetchNextScene` call. -/
def completeTurn (s : Session) (outcome : Except String Scene) : Session :=
  match outcome with
  | Except.ok scene => applySceneSuccess s scene
  | Except.error msg => applyFailure s msg

/-- `handleStartGame` from `App.tsx`: `handleApiCall("", "Start the game")`.
Returns the session after the synchronous head of `handleApiCall` together
with the pipeline request it issues. -/
def handleStartGame (s : Session) : Session × PipelineRequest :=
  (beginApiCall s, ("", "Start the game"))

/-- The fixed separator `'\n---\n'` used by `handleChoice` to join the log. -/
def historySeparator : String := "\n---\n"

/-- `handleChoice` from `App.tsx`.  Guard:
`if (!currentScene || gameState === GameState.LOADING) return;`.
On acceptance it appends the current scene's story to the log, joins the
updated log into the history string, and runs the synchronous head of
`handleApiCall`; the issued pipeline request is returned alongside
(`none` when the call was a no-op). -/
def handleChoice (s : Session) (choice : String) : Session × Option PipelineRequest :=
  match s.currentScene with
  | none => (s, none)
  | some sc =>
      if s.gameState = GameState.LOADING then (s, none)
      else
        let newLogEntry : StoryLogEntry := { id := s.storyLog.length, story := sc.story }
        let updatedLog := s.storyLog ++ [newLogEntry]
        let historyText := String.intercalate historySeparator (updatedLog.map (·.story))
        (beginApiCall { s with storyLog := updatedLog }, some (historyText, choice))

/-- A whole turn initiated by `handleChoice`: the guard, then (if the call
was accepted) the completion of the pipeline call with `outcome`. -/
def chooseTurn (s : Session) (choice : String) (outcome : Except String Scene) : Session :=
  match handleChoice s choice with
  | (s1, none) => s1
  | (s1, some _) => completeTurn s1 outcome

/-- A whole turn initiated by `handleStartGame`. -/
def startTurn (s : Session) (outcome : Except String Scene) : Session :=
  completeTurn (handleStartGame s).1 outcome

/-- The habitat module list shown by `GameUI.tsx`:
`scene?.habitatModules ?? null`.  The repository keeps no separate habitat
graph state; the displayed graph is derived from the current scene. -/
def modulesOf (s : Session) : Option (List HabitatModule) :=
  s.currentScene.map (·.habitatModules)

/-- One observable controller event: a caller-initiated `resetGame`,
`handleStartGame` or `handleChoice`, or the resolution of an in-flight
pipeline call.  Completions are allowed from any state because the code
has no staleness guard: an in-flight `fetchNextScene` result is applied to
whatever the session state is when it resolves. -/
inductive Step : Session → Session → Prop where
  | reset (s : Session) : Step s (resetGame s)
  | startBegin (s : Session) : Step s (handleStartGame s).1
  | chooseBegin (s : Session) (a : String) : Step s (handleChoice s a).1
  | complete (s : Session) (outcome : Except String Scene) : Step s (completeTurn s outcome)

/-- Sessions reachable from the initial hook values through controller
events. -/
inductive Reachable : Session → Prop where
  | init : Reachable initialSession
  | step {s s' : Session} : Reachable s → Step s s' → Reachable s'

/-! ## Habitat layout (`components/GameUI.tsx`, the `layout` memo)

The algorithm operates on JavaScript dictionaries keyed by module id; these
are modelled as association lists with JavaScript assignment semantics
(overwrite in place if the key is present, append otherwise) and
first-match lookup.  `Math.random() * Math.PI * 2`, drawn once per parent
when its first child is placed, is modelled as an explicit seed oracle
`seed : String → ℝ` giving the starting angle used for each parent id. -/

/-- A `THREE.Vector3`. -/
structure Vec3 where
  x : ℝ
  y : ℝ
  z : ℝ

/-- `new THREE.Vector3(0, 0, 0)`: the root's position. -/
def origin : Vec3 := ⟨0, 0, 0⟩

/-- The child placement of the layout loop:
`positions[child.id] = new THREE.Vector3(parent.x + 4*cos(angle), 0, parent.z + 4*sin(angle))`. -/
noncomputable def childPoint (p : Vec3) (angle : ℝ) : Vec3 :=
  ⟨p.x + 4 * Real.cos angle, 0, p.z + 4 * Real.sin angle⟩

/-- Keys of a JavaScript dictionary modelled as an association list. -/
def dictKeys {α : Type} (l : List (String × α)) : List String := l.map Prod.fst

/-- Dictionary lookup (first match; with `dictSet` semantics this is the
latest assignment). -/
def dictGet {α : Type} : List (String × α) → String → Option α
  | [], _ => none
  | kv :: rest, k => if kv.1 == k then some kv.2 else dictGet rest k

/-- Dictionary assignment: overwrite in place if present, append if new. -/
def dictSet {α : Type} (l : List (String × α)) (k : String) (v : α) : List (String × α) :=
  if l.any (fun kv => kv.1 == k) then
    l.map (fun kv => if kv.1 == k then (k, v) else kv)
  else l ++ [(k, v)]

/-- JavaScript falsiness of `m.connectedToId` (`undefined`, `null` and the
empty string are falsy). -/
def isFalsy : Option String → Bool
  | none => true
  | some s => s == ""

/-- Root selection of the layout:
`let root = modules.find(m => !m.connectedToId); if (!root && modules.length > 0) root = modules[0];`. -/
def rootOf (modules : List HabitatModule) : Option HabitatModule :=
  match modules.find? (fun m => isFalsy m.connectedToId) with
  | some r => some r
  | none => modules.head?

/-- The `children.forEach` loop body of the layout: place each child at the
parent's current angle, then advance the angle by `Math.PI / 3`.  Returns
the updated positions dictionary and the final angle. -/
noncomputable def placeChildren (pPos : Vec3) :
    List HabitatModule → ℝ → List (String × Vec3) → List (String × Vec3) × ℝ
  | [], angle, pos => (pos, angle)
  | c :: rest, angle, pos =>
      placeChildren pPos rest (angle + Real.pi / 3) (dictSet pos c.id (childPoint pPos angle))

/-- The `while (queue.length > 0)` loop of the layout, with explicit fuel
(the loop terminates because every enqueued module was just placed and
placement is guarded by the placed set; `layout` supplies sufficient
fuel).  Each iteration pops one parent, collects its not-yet-placed
children, initialises the parent's angular cursor from the seed oracle if
absent, places the children, stores the advanced cursor, and enqueues the
children. -/
noncomputable def bfsAux (seed : String → ℝ) (modules : List HabitatModule) :
    ℕ → List HabitatModule → List (String × Vec3) → List (String × ℝ) → List (String × Vec3)
  | 0, _, pos, _ => pos
  | _ + 1, [], pos, _ => pos
  | fuel + 1, parent :: rest, pos, cur =>
      let children := modules.filter
        (fun m => m.connectedToId == some parent.id && !((dictKeys pos).contains m.id))
      let pPos := (dictGet pos parent.id).getD origin
      let angle0 := (dictGet cur parent.id).getD (seed parent.id)
      let res := placeChildren pPos children angle0 pos
      let cur' := if children.isEmpty then cur else dictSet cur parent.id res.2
      bfsAux seed modules fuel (rest ++ children) res.1 cur'

/-- The `layout` memo of `SceneContainer` in `GameUI.tsx`: choose the root,
place it at the origin, then traverse breadth-first.  Returns the
`positions` dictionary. -/
noncomputable def layout (seed : String → ℝ) (modules : List HabitatModule) :
    List (String × Vec3) :=
  match rootOf modules with
  | none => []
  | some root => bfsAux seed modules (modules.length + 1) [root] [(root.id, origin)] []

/-- Reachability from the root along `connectedToId` edges, the domain of
the produced placement. -/
inductive Reaches (modules : List HabitatModule) (rootId : String) : String → Prop where
  | root : Reaches modules rootId rootId
  | child (pid : String) (m : HabitatModule) (hp : Reaches modules rootId pid)
      (hm : m ∈ modules) (hc : m.connectedToId = some pid) : Reaches modules rootId m.id

/-- The children a parent module receives in its breadth-first expansion:
the modules connected to it, in graph order, minus the root. -/
def siblings (modules : List HabitatModule) (rootId : String) (p : HabitatModule) :
    List HabitatModule :=
  modules.filter (fun m => m.connectedToId == some p.id && m.id != rootId)

/-- The entries appended by `placeChildren` when all children are fresh:
one entry per child, at angles advancing by sixty degrees. -/
noncomputable def childEntries (pPos : Vec3) :
    List HabitatModule → ℝ → List (String × Vec3)
  | [], _ => []
  | c :: rest, angle =>
      (c.id, childPoint pPos angle) :: childEntries pPos rest (angle + Real.pi / 3)

/-- The number of module entries not yet placed. -/
def countUnplaced (modules : List HabitatModule) (pos : List (String × Vec3)) : ℕ :=
  modules.countP (fun m => !((dictKeys pos).contains m.id))

/-- Loop invariant of the breadth-first layout traversal, relating the
pending queue to the positions placed so far. -/
structure BfsInv (modules : List HabitatModule) (root : HabitatModule)
    (queue : List HabitatModule) (pos : List (String × Vec3)) : Prop where
  keys_nodup : (dictKeys pos).Nodup
  keys_sub : ∀ k ∈ dictKeys pos, ∃ m ∈ modules, m.id = k
  root_pos : dictGet pos root.id = some origin
  queue_mem : ∀ p ∈ queue, p ∈ modules
  queue_placed : ∀ p ∈ queue, p.id ∈ dictKeys pos
  queue_nodup : (queue.map (·.id)).Nodup
  sound : ∀ k ∈ dictKeys pos, Reaches modules root.id k
  closed : ∀ p ∈ modules, p.id ∈ dictKeys pos → p.id ∉ queue.map (·.id) →
      ∀ m ∈ modules, m.connectedToId = some p.id → m.id ∈ dictKeys pos
  cause : ∀ m ∈ modules, m.id ∈ dictKeys pos → m.id ≠ root.id →
      ∃ pid, m.connectedToId = some pid ∧ pid ∈ dictKeys pos ∧ pid ∉ queue.map (·.id)
  geom : ∀ p ∈ modules, p.id ∈ dictKeys pos → p.id ∉ queue.map (·.id) →
      ∃ angle0 pv, dictGet pos p.id = some pv ∧
        ∀ (k : ℕ) (m : HabitatModule), (siblings modules root.id p)[k]? = some m →
          dictGet pos m.id = some (childPoint pv (angle0 + (k : ℝ) * (Real.pi / 3)))
  flat : ∀ e ∈ pos, e.2.y = 0

/-! ## Reply parsing (`services/geminiService.ts`, `generateStory`) -/

/-- The first replace of `generateStory`,
`text.replace(/^```json\n?/, '')`: remove a leading literal
`‛```json‛` together with an optional following newline.  Modelled over the
character sequence the regex engine operates on. -/
def replaceLeadingFence (cs : List Char) : List Char :=
  if "```json\n".data.isPrefixOf cs then cs.drop 8
  else if "```json".data.isPrefixOf cs then cs.drop 7
  else cs

/-- The second replace of `generateStory`,
`.replace(/\n?```$/, '')`: remove a trailing `‛```‛` together with an
optional preceding newline. -/
def replaceTrailingFence (cs : List Char) : List Char :=
  if "\n```".data.isSuffixOf cs then cs.take (cs.length - 4)
  else if "```".data.isSuffixOf cs then cs.take (cs.length - 3)
  else cs

/-- The `cleanText` computation of `generateStory`: both fence replaces. -/
def stripFence (text : String) : String :=
  String.mk (replaceTrailingFence (replaceLeadingFence text.data))

/-- The fixed message of the error thrown by `generateStory` when parsing
fails.  The offending raw text is written to the console only; it is not
part of the thrown error. -/
def formatErrorMessage : String := "Received an invalid story format from the AI."

/-- The parsing tail of `generateStory`: trim the reply, strip an
incidental markdown code fence, then `JSON.parse` the result, which is
returned as the scene payload without any shape validation (the source
casts with `as ScenePayload`).  The JavaScript runtime `JSON.parse` is
modelled as an oracle `jsonParse` returning `none` exactly when it would
throw. -/
def parseStoryReply {α : Type} (jsonParse : String → Option α) (rawText : String) :
    Except String α :=
  let text := jsTrim rawText
  let cleanText := stripFence text
  match jsonParse cleanText with
  | some payload => Except.ok payload
  | none => Except.error formatErrorMessage

/-! ## Concrete fixtures used by counterexamples and witnesses -/

/-- The crashed shuttle module, as in the pipeline's initial habitat. -/
def shuttleModule : HabitatModule :=
  { id := "shuttle-1", type := ModuleType.shuttle, connectedToId := none }

/-- A biodome module attached to the shuttle. -/
def biodomeModule : HabitatModule :=
  { id := "biodome-1", type := ModuleType.biodome, connectedToId := some "shuttle-1" }

/-- A first-turn scene: root-only habitat, an item found, game continues. -/
def sceneTurn1 : Scene :=
  { story := "You crawl out of the wreck."
    imagePrompt := "crash site"
    choices := ["Build Biodome", "Scavenge"]
    newItem := some "Medkit"
    gameOver := false
    habitatStatus := "A crashed shuttle."
    habitatModules := [shuttleModule]
    imageUrl := "img1" }

/-- A second-turn scene whose habitat list omits `shuttle-1` entirely. -/
def sceneOmittingShuttle : Scene :=
  { story := "The biodome rises alone."
    imagePrompt := "biodome"
    choices := ["Rest"]
    newItem := none
    gameOver := false
    habitatStatus := "A single biodome."
    habitatModules := [biodomeModule]
    imageUrl := "img2" }

/-- A scene that ends the game. -/
def sceneGameOver : Scene :=
  { story := "The dust storm takes you."
    imagePrompt := "storm"
    choices := []
    newItem := none
    gameOver := true
    habitatStatus := "Buried."
    habitatModules := [shuttleModule]
    imageUrl := "img3" }

/-- The session after a successful first turn. -/
def sessionAfterTurn1 : Session := startTurn initialSession (Except.ok sceneTurn1)

/-- A reachable `GAME_OVER` session holding a scene. -/
def sessionGameOver : Session := startTurn initialSession (Except.ok sceneGameOver)

/-- A reachable `ERROR` session with a non-empty inventory. -/
def sessionError : Session :=
  chooseTurn sessionAfterTurn1 "Build Biodome" (Except.error "Transmission lost")

/-- The session after a second successful turn whose scene omitted
`shuttle-1` from its habitat list. -/
def sessionOmit : Session :=
  chooseTurn sessionAfterTurn1 "Build Biodome" (Except.ok sceneOmittingShuttle)

/-- The two-module habitat used by the layout witnesses and
counterexamples: the shuttle root and one biodome child. -/
def twoModuleHabitat : List HabitatModule := [shuttleModule, biodomeModule]

/-- A scene whose `newItem` is a non-empty but blank (whitespace-only)
string. -/
def sceneBlankItem : Scene :=
  { story := "Static on the radio."
    imagePrompt := "static"
    choices := ["Wait"]
    newItem := some " "
    gameOver := false
    habitatStatus := "A crashed shuttle."
    habitatModules := [shuttleModule]
    imageUrl := "img4" }

end SettlersOfMars

namespace SettlersOfMars

/-! ## Helper lemmas about the controller -/

theorem applySceneSuccess_currentScene (s : Session) (scene : Scene) :
    (applySceneSuccess s scene).currentScene = some scene := by
  unfold applySceneSuccess
  cases scene.newItem with
  | none => rfl
  | some it => dsimp only

theorem applySceneSuccess_gameState (s : Session) (scene : Scene) :
    (applySceneSuccess s scene).gameState
      = if scene.gameOver then GameState.GAME_OVER else GameState.PLAYING := by
  unfold applySceneSuccess
  cases scene.newItem with
  | none => rfl
  | some it => dsimp only

theorem applySceneSuccess_error (s : Session) (scene : Scene) :
    (applySceneSuccess s scene).error = s.error := by
  unfold applySceneSuccess
  cases scene.newItem with
  | none => rfl
  | some it =>
      dsimp only
      split <;> rfl

theorem applySceneSuccess_storyLog (s : Session) (scene : Scene) :
    (applySceneSuccess s scene).storyLog = s.storyLog := by
  unfold applySceneSuccess
  cases scene.newItem with
  | none => rfl
  | some it =>
      dsimp only
      split <;> rfl

theorem applySceneSuccess_inventory_nodup (s : Session) (scene : Scene)
    (h : s.inventory.Nodup) : (applySceneSuccess s scene).inventory.Nodup := by
  unfold applySceneSuccess
  cases scene.newItem with
  | none => exact h
  | some it =>
      dsimp only
      split
      · next hcond =>
          simp at hcond
          simpa [List.nodup_append] using ⟨h, hcond.2⟩
      · exact h

/-- The log entry appended by an accepted `handleChoice` call. -/
theorem handleChoice_accepted (s : Session) (sc : Scene) (a : String)
    (hsc : s.currentScene = some sc) (hl : s.gameState ≠ GameState.LOADING) :
    handleChoice s a =
      (beginApiCall { s with storyLog :=
          s.storyLog ++ [({ id := s.storyLog.length, story := sc.story } : StoryLogEntry)] },
       some (String.intercalate historySeparator
         ((s.storyLog ++ [({ id := s.storyLog.length, story := sc.story } : StoryLogEntry)]).map (·.story)), a)) := by
  unfold handleChoice
  rw [hsc]
  simp [hl]

/-! ## Claim theorems: session controller -/

/-- C5 (counterexample): the repository's guard in `handleChoice` is only
`!currentScene || gameState === LOADING`.  From the reachable `GAME_OVER`
session produced by a `gameOver: true` scene, a later `choose()` call is
*not* a no-op: it changes the session and issues a pipeline request,
contradicting the claim that `choose` is ignored in every state other than
`PLAYING`. -/
theorem choose_after_game_over_not_noop :
    Reachable sessionGameOver ∧
    sessionGameOver.gameState = GameState.GAME_OVER ∧
    sessionGameOver.currentScene.isSome = true ∧
    handleChoice sessionGameOver "Try again" ≠ (sessionGameOver, none) ∧
    (handleChoice sessionGameOver "Try again").2.isSome = true := by
  refine ⟨?_, by decide, by decide, by decide, by decide⟩
  exact Reachable.step (Reachable.step Reachable.init (Step.startBegin initialSession))
    (Step.complete _ (Except.ok sceneGameOver))

/-- C5 (amended): `choose(action)` is a no-op (session unchanged, no
pipeline call) exactly when no scene is loaded or the state is `LOADING`.
In particular it is a no-op in `START` and immediately after `reset()`
(where the scene is `null`), but from `GAME_OVER` or `ERROR` with a scene
still stored the call proceeds; only the UI's hiding of the choice buttons
prevents it there. -/
theorem choose_noop_iff (s : Session) (a : String) :
    handleChoice s a = (s, none)
      ↔ (s.currentScene = none ∨ s.gameState = GameState.LOADING) := by
  constructor
  · intro h
    cases hsc : s.currentScene with
    | none => exact Or.inl rfl
    | some sc =>
        by_cases hl : s.gameState = GameState.LOADING
        · exact Or.inr hl
        · exfalso
          rw [handleChoice_accepted s sc a hsc hl] at h
          exact Option.noConfusion (congrArg Prod.snd h)
  · rintro (h | h)
    · unfold handleChoice
      rw [h]
    · unfold handleChoice
      cases hsc : s.currentScene <;> simp [h]

/-- C6 (counterexample): from a reachable terminal `ERROR` session with a
non-empty inventory, `start()` does *not* clear the session data: the
inventory, story log and current scene survive, contradicting the claim
that an accepted `start()` clears all session data. -/
theorem start_does_not_clear_session :
    Reachable sessionError ∧
    sessionError.gameState = GameState.ERROR ∧
    sessionError.inventory = ["Medkit"] ∧
    (handleStartGame sessionError).1.inventory = ["Medkit"] ∧
    (handleStartGame sessionError).1.storyLog ≠ [] ∧
    (handleStartGame sessionError).1.currentScene ≠ none := by
  refine ⟨?_, by decide, by decide, by decide, by decide, by decide⟩
  have h1 := Reachable.step Reachable.init (Step.startBegin initialSession)
  have h2 := Reachable.step h1 (Step.complete _ (Except.ok sceneTurn1))
  have h3 := Reachable.step h2 (Step.chooseBegin _ "Build Biodome")
  exact Reachable.step h3 (Step.complete _ (Except.error "Transmission lost"))

/-- C6 (amended): `start()` is accepted unconditionally from every state;
it clears only the stored error, enters `LOADING`, and invokes the
pipeline with empty history and the sentinel action `"Start the game"`.
The current scene, story log, inventory and last-added marker are left
untouched (only `reset()` clears them). -/
theorem start_game_behavior (s : Session) :
    (handleStartGame s).1.gameState = GameState.LOADING ∧
    (handleStartGame s).1.error = none ∧
    (handleStartGame s).1.currentScene = s.currentScene ∧
    (handleStartGame s).1.storyLog = s.storyLog ∧
    (handleStartGame s).1.inventory = s.inventory ∧
    (handleStartGame s).1.lastAddedItem = s.lastAddedItem ∧
    (handleStartGame s).2 = ("", "Start the game") :=
  ⟨rfl, rfl, rfl, rfl, rfl, rfl, rfl⟩

/-- C9: when `choose(action)` is accepted, the controller appends the
current scene's story text (not the chosen action) to the story log,
builds the history string by joining all logged story entries with the
fixed separator `"\n---\n"`, enters `LOADING`, and issues the pipeline
request with that history string and the chosen action. -/
theorem choose_accepted_behavior (s : Session) (sc : Scene) (a : String)
    (hsc : s.currentScene = some sc) (hl : s.gameState ≠ GameState.LOADING) :
    (handleChoice s a).1.storyLog
        = s.storyLog ++ [({ id := s.storyLog.length, story := sc.story } : StoryLogEntry)] ∧
    (handleChoice s a).1.gameState = GameState.LOADING ∧
    (handleChoice s a).2 =
      some (String.intercalate historySeparator
        ((s.storyLog ++ [({ id := s.storyLog.length, story := sc.story } : StoryLogEntry)]).map (·.story)), a) := by
  rw [handleChoice_accepted s sc a hsc hl]
  exact ⟨rfl, rfl, rfl⟩

/-- Witness for C9 at a concrete reachable session. -/
theorem choose_accepted_behavior_witness :
    sessionAfterTurn1.currentScene = some sceneTurn1 ∧
    sessionAfterTurn1.gameState ≠ GameState.LOADING ∧
    (handleChoice sessionAfterTurn1 "Go").1.storyLog
      = sessionAfterTurn1.storyLog
        ++ [({ id := sessionAfterTurn1.storyLog.length, story := sceneTurn1.story } : StoryLogEntry)] ∧
    (handleChoice sessionAfterTurn1 "Go").1.gameState = GameState.LOADING :=
  ⟨by decide, by decide,
    (choose_accepted_behavior sessionAfterTurn1 sceneTurn1 "Go" (by decide) (by decide)).1,
    (choose_accepted_behavior sessionAfterTurn1 sceneTurn1 "Go" (by decide) (by decide)).2.1⟩

/-- C10: in every reachable session, if the state is `PLAYING` or
`GAME_OVER` then a current scene is stored: the only transitions into these
states (the success branch of `handleApiCall`) store a fully resolved scene
first, and `reset` returns the state to `START` while clearing the scene. -/
theorem playing_scene_invariant (s : Session) (hs : Reachable s)
    (hg : s.gameState = GameState.PLAYING ∨ s.gameState = GameState.GAME_OVER) :
    s.currentScene ≠ none := by
  induction hs with
  | init => rcases hg with h | h <;> exact GameState.noConfusion h
  | @step t t' _ hstep ih =>
      cases hstep with
      | reset => rcases hg with h | h <;> exact GameState.noConfusion h
      | startBegin => rcases hg with h | h <;> exact GameState.noConfusion h
      | chooseBegin a =>
          cases hsc : t.currentScene with
          | none =>
              have hid : handleChoice t a = (t, none) := by
                unfold handleChoice; rw [hsc]
              rw [hid] at hg ⊢
              exact ih hg
          | some sc =>
              by_cases hl : t.gameState = GameState.LOADING
              · have hid : handleChoice t a = (t, none) := by
                  unfold handleChoice; rw [hsc]; simp [hl]
                rw [hid] at hg ⊢
                exact ih hg
              · rw [handleChoice_accepted t sc a hsc hl] at hg
                rcases hg with h | h <;> exact GameState.noConfusion h
      | complete outcome =>
          cases outcome with
          | ok scene =>
              rw [completeTurn, applySceneSuccess_currentScene]
              exact Option.noConfusion
          | error msg =>
              rcases hg with h | h <;> exact GameState.noConfusion h

/-- Witness for C10 at a concrete reachable `PLAYING` session. -/
theorem playing_scene_invariant_witness :
    sessionAfterTurn1.currentScene ≠ none :=
  playing_scene_invariant sessionAfterTurn1
    (Reachable.step (Reachable.step Reachable.init (Step.startBegin initialSession))
      (Step.complete _ (Except.ok sceneTurn1)))
    (Or.inl (by decide))

/-- C4 (counterexample): `handleChoice` appends the current scene's story
to the log *before* the pipeline call, so a turn whose pipeline call fails
leaves the story log grown by one entry — the session does not retain all
of its pre-turn values, contradicting the claim. -/
theorem failed_turn_grows_story_log :
    Reachable sessionError ∧
    sessionError = chooseTurn sessionAfterTurn1 "Build Biodome" (Except.error "Transmission lost") ∧
    sessionError.gameState = GameState.ERROR ∧
    sessionAfterTurn1.storyLog = [] ∧
    sessionError.storyLog ≠ sessionAfterTurn1.storyLog := by
  refine ⟨?_, rfl, by decide, by decide, by decide⟩
  have h1 := Reachable.step Reachable.init (Step.startBegin initialSession)
  have h2 := Reachable.step h1 (Step.complete _ (Except.ok sceneTurn1))
  have h3 := Reachable.step h2 (Step.chooseBegin _ "Build Biodome")
  exact Reachable.step h3 (Step.complete _ (Except.error "Transmission lost"))

/-- C4 (amended): on a failed turn, the inventory, current scene (hence the
displayed habitat modules) and last-added marker retain their pre-turn
values, the error message is stored and the state becomes `ERROR`; the
story log, however, is appended to by an accepted `choose()` *before* the
pipeline call and keeps that extra entry.  A failed start-turn leaves the
log unchanged as well. -/
theorem turn_failure_isolation (s : Session) (sc : Scene) (choice msg : String)
    (hsc : s.currentScene = some sc) (hl : s.gameState ≠ GameState.LOADING) :
    (chooseTurn s choice (Except.error msg)).inventory = s.inventory ∧
    (chooseTurn s choice (Except.error msg)).currentScene = s.currentScene ∧
    (chooseTurn s choice (Except.error msg)).lastAddedItem = s.lastAddedItem ∧
    modulesOf (chooseTurn s choice (Except.error msg)) = modulesOf s ∧
    (chooseTurn s choice (Except.error msg)).error = some msg ∧
    (chooseTurn s choice (Except.error msg)).gameState = GameState.ERROR ∧
    (chooseTurn s choice (Except.error msg)).storyLog
      = s.storyLog ++ [({ id := s.storyLog.length, story := sc.story } : StoryLogEntry)] ∧
    (startTurn s (Except.error msg)).storyLog = s.storyLog ∧
    (startTurn s (Except.error msg)).inventory = s.inventory ∧
    (startTurn s (Except.error msg)).currentScene = s.currentScene ∧
    (startTurn s (Except.error msg)).error = some msg ∧
    (startTurn s (Except.error msg)).gameState = GameState.ERROR := by
  have hct : chooseTurn s choice (Except.error msg)
      = applyFailure (beginApiCall
          { s with storyLog := s.storyLog ++ [({ id := s.storyLog.length, story := sc.story } : StoryLogEntry)] }) msg := by
    unfold chooseTurn
    rw [handleChoice_accepted s sc choice hsc hl]
    rfl
  rw [hct]
  exact ⟨rfl, rfl, rfl, rfl, rfl, rfl, rfl, rfl, rfl, rfl, rfl, rfl⟩

/-- Witness for C4 at a concrete reachable session. -/
theorem turn_failure_isolation_witness :
    (chooseTurn sessionAfterTurn1 "Scavenge" (Except.error "boom")).inventory
        = sessionAfterTurn1.inventory ∧
    (chooseTurn sessionAfterTurn1 "Scavenge" (Except.error "boom")).currentScene
        = sessionAfterTurn1.currentScene ∧
    (chooseTurn sessionAfterTurn1 "Scavenge" (Except.error "boom")).gameState
        = GameState.ERROR :=
  ⟨(turn_failure_isolation sessionAfterTurn1 sceneTurn1 "Scavenge" "boom"
      (by decide) (by decide)).1,
   (turn_failure_isolation sessionAfterTurn1 sceneTurn1 "Scavenge" "boom"
      (by decide) (by decide)).2.1,
   (turn_failure_isolation sessionAfterTurn1 sceneTurn1 "Scavenge" "boom"
      (by decide) (by decide)).2.2.2.2.2.1⟩

/-- C1 (counterexample): the controller performs no habitat merge or
integrity validation.  A turn whose incoming `habitatModules` list omits
`shuttle-1` (present after turn 1) succeeds: the state becomes `PLAYING`
rather than `ERROR`, no `HabitatIntegrityError` exists, and the displayed
habitat modules are replaced wholesale, so `shuttle-1` disappears. -/
theorem habitat_omission_accepted :
    Reachable sessionOmit ∧
    modulesOf sessionAfterTurn1 = some [shuttleModule] ∧
    sessionOmit = chooseTurn sessionAfterTurn1 "Build Biodome" (Except.ok sceneOmittingShuttle) ∧
    sessionOmit.gameState = GameState.PLAYING ∧
    sessionOmit.gameState ≠ GameState.ERROR ∧
    modulesOf sessionOmit = some [biodomeModule] ∧
    (∀ m ∈ (modulesOf sessionOmit).getD [], m.id ≠ "shuttle-1") := by
  refine ⟨?_, by decide, rfl, by decide, by decide, by decide, by decide⟩
  have h1 := Reachable.step Reachable.init (Step.startBegin initialSession)
  have h2 := Reachable.step h1 (Step.complete _ (Except.ok sceneTurn1))
  have h3 := Reachable.step h2 (Step.chooseBegin _ "Build Biodome")
  exact Reachable.step h3 (Step.complete _ (Except.ok sceneOmittingShuttle))

/-- C1 (amended): a successful turn stores the incoming scene wholesale and
never fails on habitat grounds: the displayed habitat module list after the
turn is exactly the incoming `habitatModules` sequence (whatever ids it
omits or alters), the state is `PLAYING`/`GAME_OVER` and no error is
stored.  Append-only persistence of module ids is delegated to the
narrative capability's prompt contract, not enforced by this code. -/
theorem turn_replaces_modules (s : Session) (sc scene : Scene) (choice : String)
    (hsc : s.currentScene = some sc) (hl : s.gameState ≠ GameState.LOADING) :
    modulesOf (chooseTurn s choice (Except.ok scene)) = some scene.habitatModules ∧
    (chooseTurn s choice (Except.ok scene)).gameState
      = (if scene.gameOver then GameState.GAME_OVER else GameState.PLAYING) ∧
    (chooseTurn s choice (Except.ok scene)).gameState ≠ GameState.ERROR ∧
    (chooseTurn s choice (Except.ok scene)).error = none := by
  have hct : chooseTurn s choice (Except.ok scene)
      = applySceneSuccess (beginApiCall
          { s with storyLog := s.storyLog ++ [({ id := s.storyLog.length, story := sc.story } : StoryLogEntry)] }) scene := by
    unfold chooseTurn
    rw [handleChoice_accepted s sc choice hsc hl]
    rfl
  rw [hct]
  refine ⟨?_, applySceneSuccess_gameState _ _, ?_, ?_⟩
  · rw [modulesOf, applySceneSuccess_currentScene]
    rfl
  · rw [applySceneSuccess_gameState]
    cases scene.gameOver <;> simp
  · rw [applySceneSuccess_error]
    rfl

/-- Witness for C1's amended theorem at a concrete reachable session. -/
theorem turn_replaces_modules_witness :
    modulesOf (chooseTurn sessionAfterTurn1 "Rest" (Except.ok sceneOmittingShuttle))
      = some sceneOmittingShuttle.habitatModules ∧
    (chooseTurn sessionAfterTurn1 "Rest" (Except.ok sceneOmittingShuttle)).error = none :=
  ⟨(turn_replaces_modules sessionAfterTurn1 sceneTurn1 sceneOmittingShuttle "Rest"
      (by decide) (by decide)).1,
   (turn_replaces_modules sessionAfterTurn1 sceneTurn1 sceneOmittingShuttle "Rest"
      (by decide) (by decide)).2.2.2⟩

/-- C8 (counterexample): the code's guard trims the item, so a turn whose
`newItem` is the non-empty blank string `" "` (not already present) does
*not* append it — contradicting the claim that every non-empty, absent
`newItem` is appended and marked last-added. -/
theorem blank_item_not_added :
    sceneBlankItem.newItem = some " " ∧
    (" " : String) ≠ "" ∧
    " " ∉ initialSession.inventory ∧
    (startTurn initialSession (Except.ok sceneBlankItem)).inventory = [] ∧
    (startTurn initialSession (Except.ok sceneBlankItem)).lastAddedItem = none := by
  refine ⟨rfl, by decide, by decide, by decide, by decide⟩

/-- C8 (amended): across all reachable sessions the inventory never
contains duplicate item names; a successful turn whose `newItem` is
non-blank (non-empty after trimming whitespace) and not already present
appends it and marks it last-added; a turn whose `newItem` is `null`,
blank, or already present leaves the inventory unchanged and clears the
last-added marker. -/
theorem inventory_update_behavior (s : Session) (hs : Reachable s) (scene : Scene) :
    s.inventory.Nodup ∧
    (∀ it, scene.newItem = some it → jsTrim it ≠ "" → it ∉ s.inventory →
      (applySceneSuccess s scene).inventory = s.inventory ++ [it] ∧
      (applySceneSuccess s scene).lastAddedItem = some it) ∧
    (scene.newItem = none →
      (applySceneSuccess s scene).inventory = s.inventory ∧
      (applySceneSuccess s scene).lastAddedItem = none) ∧
    (∀ it, scene.newItem = some it → (jsTrim it = "" ∨ it ∈ s.inventory) →
      (applySceneSuccess s scene).inventory = s.inventory ∧
      (applySceneSuccess s scene).lastAddedItem = none) := by
  refine ⟨?_, ?_, ?_, ?_⟩
  · clear scene
    induction hs with
    | init => exact List.nodup_nil
    | @step t t' _ hstep ih =>
        cases hstep with
        | reset => exact List.nodup_nil
        | startBegin => exact ih
        | chooseBegin a =>
            cases hsc : t.currentScene with
            | none =>
                have hid : handleChoice t a = (t, none) := by
                  unfold handleChoice; rw [hsc]
                rw [hid]; exact ih
            | some sc =>
                by_cases hl : t.gameState = GameState.LOADING
                · have hid : handleChoice t a = (t, none) := by
                    unfold handleChoice; rw [hsc]; simp [hl]
                  rw [hid]; exact ih
                · rw [handleChoice_accepted t sc a hsc hl]
                  exact ih
        | complete outcome =>
            cases outcome with
            | ok scene => exact applySceneSuccess_inventory_nodup t scene ih
            | error msg => exact ih
  · intro it hni htrim hmem
    have hne : it ≠ "" := by
      intro h
      exact htrim (by rw [h]; rfl)
    have hcond : (it != "" && jsTrim it != "" && !(s.inventory.contains it)) = true := by
      simp [hne, htrim, hmem]
    unfold applySceneSuccess
    rw [hni]
    dsimp only
    rw [if_pos hcond]
    exact ⟨rfl, rfl⟩
  · intro hni
    unfold applySceneSuccess
    rw [hni]
    exact ⟨rfl, rfl⟩
  · intro it hni hskip
    have hcond : ¬ ((it != "" && jsTrim it != "" && !(s.inventory.contains it)) = true) := by
      rcases hskip with h | h
      · simp [h]
      · intro hc
        simp at hc
        exact hc.2 h
    unfold applySceneSuccess
    rw [hni]
    dsimp only
    rw [if_neg hcond]
    exact ⟨rfl, rfl⟩

/-- Witness for C8's amended theorem: adding `"Medkit"` to the empty
reachable inventory. -/
theorem inventory_update_behavior_witness :
    (applySceneSuccess initialSession sceneTurn1).inventory
        = initialSession.inventory ++ ["Medkit"] ∧
    (applySceneSuccess initialSession sceneTurn1).lastAddedItem = some "Medkit" :=
  (inventory_update_behavior initialSession Reachable.init sceneTurn1).2.1 "Medkit"
    rfl (by decide) (by decide)

/-! ## Claim theorems: reply parsing -/

/-- C7 (counterexample): a parse failure raises an error whose message is
the fixed string `formatErrorMessage` — the offending raw text is not
attached to the error (it is only logged); and a reply that parses as JSON
is returned as the payload with no shape validation, i.e. it *is* silently
coerced into a Scene.  (`fun _ => none` and `fun s => some s` are parse
oracles consistent with `JSON.parse` on the given non-JSON input and on a
JSON value of the wrong shape respectively.) -/
theorem parse_failure_drops_raw_text :
    parseStoryReply (fun _ => (none : Option Nat)) "not json" = Except.error formatErrorMessage ∧
    ¬ ("not json".data <:+: formatErrorMessage.data) ∧
    parseStoryReply (fun s => some s) "plain wrong shape" = Except.ok "plain wrong shape" := by
  refine ⟨rfl, by decide, rfl⟩

/-- C7 (amended): the pipeline trims the reply and strips a leading
`‛```json‛` fence (with optional newline) and a trailing `‛```‛` fence
(with optional preceding newline) before parsing; a parse failure raises an
error carrying only the fixed message (the raw text is logged to the
console, not attached); a parse success is returned as the scene payload
without any shape validation. -/
theorem parse_reply_behavior {α : Type} (jsonParse : String → Option α) (body : String)
    (htrim : jsTrim ("```json\n" ++ body ++ "\n```") = "```json\n" ++ body ++ "\n```") :
    stripFence ("```json\n" ++ body ++ "\n```") = body ∧
    (∀ v, jsonParse body = some v →
      parseStoryReply jsonParse ("```json\n" ++ body ++ "\n```") = Except.ok v) ∧
    (jsonParse body = none →
      parseStoryReply jsonParse ("```json\n" ++ body ++ "\n```") = Except.error formatErrorMessage) := by
  have hdata : ("```json\n" ++ body ++ "\n```").data
      = "```json\n".data ++ (body.data ++ "\n```".data) := by
    rw [String.data_append, String.data_append, List.append_assoc]
  have hlead : replaceLeadingFence ("```json\n".data ++ (body.data ++ "\n```".data))
      = body.data ++ "\n```".data := by
    unfold replaceLeadingFence
    rw [if_pos]
    · have h8 : (8 : ℕ) = "```json\n".data.length := rfl
      rw [h8, List.drop_left]
    · rw [List.isPrefixOf_iff_prefix]
      exact List.prefix_append _ _
  have htrail : replaceTrailingFence (body.data ++ "\n```".data) = body.data := by
    unfold replaceTrailingFence
    rw [if_pos]
    · have hlen : (body.data ++ "\n```".data).length - 4 = body.data.length := by
        rw [List.length_append]
        rfl
      rw [hlen, List.take_left]
    · rw [List.isSuffixOf_iff_suffix]
      exact List.suffix_append _ _
  have hstrip : stripFence ("```json\n" ++ body ++ "\n```") = body := by
    unfold stripFence
    rw [hdata, hlead, htrail]
  refine ⟨hstrip, ?_, ?_⟩
  · intro v hv
    unfold parseStoryReply
    dsimp only
    rw [htrim, hstrip, hv]
  · intro hv
    unfold parseStoryReply
    dsimp only
    rw [htrim, hstrip, hv]

/-! ## Helper lemmas: dictionaries -/

theorem dictKeys_cons {α : Type} (kv : String × α) (l : List (String × α)) :
    dictKeys (kv :: l) = kv.1 :: dictKeys l := rfl

theorem dictGet_cons {α : Type} (kv : String × α) (l : List (String × α)) (k : String) :
    dictGet (kv :: l) k = if (kv.1 == k) = true then some kv.2 else dictGet l k := rfl

theorem mem_dictKeys_of_dictGet {α : Type} {l : List (String × α)} {k : String} {v : α}
    (h : dictGet l k = some v) : k ∈ dictKeys l := by
  induction l with
  | nil => exact Option.noConfusion h
  | cons kv rest ih =>
      rw [dictGet_cons] at h
      rw [dictKeys_cons]
      by_cases hk : (kv.1 == k) = true
      · rw [eq_of_beq hk]
        exact List.mem_cons_self _ _
      · rw [if_neg hk] at h
        exact List.mem_cons_of_mem _ (ih h)

theorem dictGet_none_of_not_mem {α : Type} {l : List (String × α)} {k : String}
    (h : k ∉ dictKeys l) : dictGet l k = none := by
  induction l with
  | nil => rfl
  | cons kv rest ih =>
      rw [dictKeys_cons] at h
      rw [dictGet_cons]
      have hk : ¬ (kv.1 == k) = true := by
        intro hb
        exact h ((eq_of_beq hb) ▸ List.mem_cons_self _ _)
      rw [if_neg hk]
      exact ih (fun hm => h (List.mem_cons_of_mem _ hm))

theorem dictGet_isSome_of_mem {α : Type} {l : List (String × α)} {k : String}
    (h : k ∈ dictKeys l) : (dictGet l k).isSome = true := by
  induction l with
  | nil => exact absurd h (List.not_mem_nil k)
  | cons kv rest ih =>
      rw [dictKeys_cons] at h
      rw [dictGet_cons]
      by_cases hk : (kv.1 == k) = true
      · rw [if_pos hk]
        rfl
      · rw [if_neg hk]
        rcases List.mem_cons.mp h with h | h
        · exact absurd (beq_iff_eq.mpr h.symm) hk
        · exact ih h

theorem dictGet_mono {α : Type} {l t : List (String × α)} {k : String} {v : α}
    (h : dictGet l k = some v) : dictGet (l ++ t) k = some v := by
  induction l with
  | nil => exact Option.noConfusion h
  | cons kv rest ih =>
      rw [dictGet_cons] at h
      rw [List.cons_append, dictGet_cons]
      by_cases hk : (kv.1 == k) = true
      · rw [if_pos hk] at h ⊢
        exact h
      · rw [if_neg hk] at h ⊢
        exact ih h

theorem dictGet_append_right {α : Type} {l t : List (String × α)} {k : String}
    (h : k ∉ dictKeys l) : dictGet (l ++ t) k = dictGet t k := by
  induction l with
  | nil => rfl
  | cons kv rest ih =>
      rw [dictKeys_cons] at h
      rw [List.cons_append, dictGet_cons]
      have hk : ¬ (kv.1 == k) = true := by
        intro hb
        exact h ((eq_of_beq hb) ▸ List.mem_cons_self _ _)
      rw [if_neg hk]
      exact ih (fun hm => h (List.mem_cons_of_mem _ hm))

theorem dictGet_mem {α : Type} {l : List (String × α)} {k : String} {v : α}
    (h : dictGet l k = some v) : (k, v) ∈ l := by
  induction l with
  | nil => exact Option.noConfusion h
  | cons kv rest ih =>
      rw [dictGet_cons] at h
      by_cases hk : (kv.1 == k) = true
      · rw [if_pos hk] at h
        have h1 : kv.1 = k := eq_of_beq hk
        have h2 : kv.2 = v := Option.some.inj h
        have : kv = (k, v) := by
          cases kv
          simp at h1 h2
          rw [h1, h2]
        rw [← this]
        exact List.mem_cons_self _ _
      · rw [if_neg hk] at h
        exact List.mem_cons_of_mem _ (ih h)

theorem dictSet_fresh {α : Type} {l : List (String × α)} {k : String} (v : α)
    (h : k ∉ dictKeys l) : dictSet l k v = l ++ [(k, v)] := by
  unfold dictSet
  rw [if_neg]
  intro hany
  rcases List.any_eq_true.mp hany with ⟨kv, hkv, hb⟩
  exact h (by
    have : kv.1 = k := eq_of_beq hb
    rw [← this]
    exact List.mem_map_of_mem Prod.fst hkv)

theorem dictKeys_append {α : Type} (l t : List (String × α)) :
    dictKeys (l ++ t) = dictKeys l ++ dictKeys t :=
  List.map_append Prod.fst l t

/-! ## Helper lemmas: child placement -/

theorem childEntries_keys (pPos : Vec3) (cs : List HabitatModule) (angle : ℝ) :
    dictKeys (childEntries pPos cs angle) = cs.map (·.id) := by
  induction cs generalizing angle with
  | nil => rfl
  | cons c rest ih =>
      unfold childEntries
      simp [dictKeys] at ih ⊢
      exact ih _

theorem childEntries_flat (pPos : Vec3) (cs : List HabitatModule) (angle : ℝ) :
    ∀ e ∈ childEntries pPos cs angle, e.2.y = 0 := by
  induction cs generalizing angle with
  | nil => intro e he; exact absurd he (List.not_mem_nil e)
  | cons c rest ih =>
      intro e he
      unfold childEntries at he
      rcases List.mem_cons.mp he with he | he
      · rw [he]
        rfl
      · exact ih _ e he

theorem childEntries_get (pPos : Vec3) (cs : List HabitatModule)
    (hnd : (cs.map (·.id)).Nodup) (angle : ℝ) :
    ∀ (k : ℕ) (c : HabitatModule), cs[k]? = some c →
      dictGet (childEntries pPos cs angle) c.id
        = some (childPoint pPos (angle + (k : ℝ) * (Real.pi / 3))) := by
  induction cs generalizing angle with
  | nil => intro k c hc; simp at hc
  | cons c0 rest ih =>
      intro k c hc
      cases k with
      | zero =>
          simp at hc
          subst hc
          unfold childEntries dictGet
          rw [if_pos (beq_iff_eq.mpr rfl)]
          norm_num
      | succ k =>
          simp at hc
          have hne : ¬ (c0.id == c.id) = true := by
            intro hb
            have hcid : c.id ∈ rest.map (·.id) :=
              List.mem_map_of_mem (·.id) (List.getElem?_mem hc)
            rw [List.map_cons, List.nodup_cons] at hnd
            exact hnd.1 (by rw [eq_of_beq hb]; exact hcid)
          unfold childEntries dictGet
          rw [if_neg hne]
          rw [ih (by rw [List.map_cons, List.nodup_cons] at hnd; exact hnd.2) _ k c hc]
          congr 1
          push_cast
          ring_nf

theorem placeChildren_fst (pPos : Vec3) (cs : List HabitatModule) (angle : ℝ)
    (pos : List (String × Vec3))
    (hfresh : ∀ c ∈ cs, c.id ∉ dictKeys pos)
    (hnd : (cs.map (·.id)).Nodup) :
    (placeChildren pPos cs angle pos).1 = pos ++ childEntries pPos cs angle := by
  induction cs generalizing angle pos with
  | nil => simp [placeChildren, childEntries]
  | cons c rest ih =>
      unfold placeChildren
      rw [dictSet_fresh _ (hfresh c (List.mem_cons_self c rest))]
      rw [ih _ _ ?_ ?_]
      · rw [show childEntries pPos (c :: rest) angle
            = (c.id, childPoint pPos angle) :: childEntries pPos rest (angle + Real.pi / 3) from rfl,
          List.append_assoc, List.singleton_append]
      · intro c' hc'
        rw [dictKeys_append]
        intro hmem
        rcases List.mem_append.mp hmem with h | h
        · exact hfresh c' (List.mem_cons_of_mem _ hc') h
        · rw [List.map_cons, List.nodup_cons] at hnd
          have : c'.id = c.id := by simpa [dictKeys] using h
          exact hnd.1 (this ▸ List.mem_map_of_mem (·.id) hc')
      · rw [List.map_cons, List.nodup_cons] at hnd
        exact hnd.2

/-! ## Helper lemmas: counting and the root -/

theorem countP_add_le {α : Type} (l : List α) (p q r : α → Bool)
    (hq : ∀ a ∈ l, q a = true → p a = true)
    (hr : ∀ a ∈ l, r a = true → p a = true)
    (hd : ∀ a ∈ l, ¬(q a = true ∧ r a = true)) :
    l.countP q + l.countP r ≤ l.countP p := by
  induction l with
  | nil => simp [List.countP_nil]
  | cons a rest ih =>
      have ih' := ih (fun x hx => hq x (List.mem_cons_of_mem a hx))
        (fun x hx => hr x (List.mem_cons_of_mem a hx))
        (fun x hx => hd x (List.mem_cons_of_mem a hx))
      have ha := List.mem_cons_self a rest
      rw [List.countP_cons, List.countP_cons, List.countP_cons]
      by_cases hqa : q a = true
      · have hpa := hq a ha hqa
        have hra : ¬ r a = true := fun hra => hd a ha ⟨hqa, hra⟩
        simp [hqa, hpa, hra]
        omega
      · by_cases hra : r a = true
        · have hpa := hr a ha hra
          simp [hqa, hpa, hra]
          omega
        · simp [hqa, hra]
          split <;> omega

theorem rootOf_mem {modules : List HabitatModule} {root : HabitatModule}
    (h : rootOf modules = some root) : root ∈ modules := by
  unfold rootOf at h
  cases hf : modules.find? (fun m => isFalsy m.connectedToId) with
  | some r =>
      rw [hf] at h
      simp at h
      rw [← h]
      exact List.mem_of_find?_eq_some hf
  | none =>
      rw [hf] at h
      simp at h
      exact List.mem_of_mem_head? (by simp [h])

/-! ## Helper lemmas: the breadth-first traversal -/

theorem bfs_children_eq_siblings (modules : List HabitatModule) (root p : HabitatModule)
    (rest : List HabitatModule) (pos : List (String × Vec3))
    (inv : BfsInv modules root (p :: rest) pos) :
    modules.filter (fun m => m.connectedToId == some p.id && !((dictKeys pos).contains m.id))
      = siblings modules root.id p := by
  unfold siblings
  apply List.filter_congr
  intro m hm
  by_cases hconn : (m.connectedToId == some p.id) = true
  · rw [hconn]
    simp only [Bool.true_and]
    by_cases hroot : m.id = root.id
    · have hKroot : root.id ∈ dictKeys pos := mem_dictKeys_of_dictGet inv.root_pos
      have hc : ((dictKeys pos).contains m.id) = true := List.elem_iff.mpr (hroot ▸ hKroot)
      rw [hc]
      simp [hroot]
    · have hnp : m.id ∉ dictKeys pos := by
        intro hplaced
        obtain ⟨pid, hpid_conn, _, hpid_notq⟩ := inv.cause m hm hplaced hroot
        have hpe : pid = p.id := by
          have hcp := eq_of_beq hconn
          rw [hpid_conn] at hcp
          exact Option.some.inj hcp
        rw [hpe] at hpid_notq
        exact hpid_notq (by rw [List.map_cons]; exact List.mem_cons_self _ _)
      have hc : ((dictKeys pos).contains m.id) = false := by
        rcases hcc : (dictKeys pos).contains m.id with _ | _
        · rfl
        · exact absurd (List.elem_iff.mp hcc) hnp
      rw [hc]
      simp [hroot]
  · have hb : (m.connectedToId == some p.id) = false := by
      rcases hcc : (m.connectedToId == some p.id) with _ | _
      · rfl
      · exact absurd hcc hconn
    rw [hb]
    simp

theorem bfs_init (modules : List HabitatModule) (root : HabitatModule)
    (hroot : rootOf modules = some root) :
    BfsInv modules root [root] [(root.id, origin)] := by
  have hrm : root ∈ modules := rootOf_mem hroot
  refine ⟨?_, ?_, ?_, ?_, ?_, ?_, ?_, ?_, ?_, ?_, ?_⟩
  · simp [dictKeys]
  · intro k hk
    simp [dictKeys] at hk
    exact ⟨root, hrm, hk.symm⟩
  · simp [dictGet]
  · intro q hq
    simp at hq
    rw [hq]
    exact hrm
  · intro q hq
    simp at hq
    rw [hq]
    simp [dictKeys]
  · simp
  · intro k hk
    simp [dictKeys] at hk
    rw [hk]
    exact Reaches.root
  · intro q hq hplaced hnotq
    exfalso
    simp [dictKeys] at hplaced
    simp at hnotq
    exact hnotq hplaced
  · intro m hm hplaced hne
    exfalso
    simp [dictKeys] at hplaced
    exact hne hplaced
  · intro q hq hplaced hnotq
    exfalso
    simp [dictKeys] at hplaced
    simp at hnotq
    exact hnotq hplaced
  · intro e he
    simp at he
    rw [he]
    rfl

/-- One iteration of the layout loop preserves the invariant and strictly
decreases the termination measure. -/
theorem bfs_step (modules : List HabitatModule) (root p : HabitatModule)
    (rest : List HabitatModule) (pos : List (String × Vec3))
    (hnodup : (modules.map (·.id)).Nodup)
    (inv : BfsInv modules root (p :: rest) pos)
    (pPos : Vec3) (hpp : dictGet pos p.id = some pPos) (angle0 : ℝ) :
    BfsInv modules root
      (rest ++ modules.filter (fun m => m.connectedToId == some p.id && !((dictKeys pos).contains m.id)))
      (placeChildren pPos
        (modules.filter (fun m => m.connectedToId == some p.id && !((dictKeys pos).contains m.id)))
        angle0 pos).1 ∧
    (rest ++ modules.filter (fun m => m.connectedToId == some p.id && !((dictKeys pos).contains m.id))).length
      + countUnplaced modules
          (placeChildren pPos
            (modules.filter (fun m => m.connectedToId == some p.id && !((dictKeys pos).contains m.id)))
            angle0 pos).1 + 1
      ≤ (p :: rest).length + countUnplaced modules pos := by
  have hand : ∀ a b : Bool, ((a && b) = true) ↔ (a = true ∧ b = true) := by
    intro a b
    simp
  have hnot : ∀ b : Bool, ((!b) = true) ↔ b = false := by
    intro b
    simp
  set children := modules.filter
    (fun m => m.connectedToId == some p.id && !((dictKeys pos).contains m.id)) with hchdef
  have hsib : children = siblings modules root.id p :=
    bfs_children_eq_siblings modules root p rest pos inv
  -- facts about the batch
  have hch_sub : ∀ c ∈ children, c ∈ modules := fun c hc => List.mem_of_mem_filter hc
  have hch_cond : ∀ c ∈ children,
      (c.connectedToId == some p.id) = true ∧ ((dictKeys pos).contains c.id) = false := by
    intro c hc
    have h := List.of_mem_filter hc
    rcases (hand _ _).mp h with ⟨h1, h2⟩
    exact ⟨h1, (hnot _).mp h2⟩
  have hch_fresh : ∀ c ∈ children, c.id ∉ dictKeys pos := by
    intro c hc hk
    have h2 := (hch_cond c hc).2
    have h3 : ((dictKeys pos).contains c.id) = true := List.elem_iff.mpr hk
    rw [h2] at h3
    exact Bool.noConfusion h3
  have hch_conn : ∀ c ∈ children, c.connectedToId = some p.id :=
    fun c hc => eq_of_beq (hch_cond c hc).1
  have hch_nd : (children.map (·.id)).Nodup :=
    hnodup.sublist ((List.filter_sublist modules).map (·.id))
  have hpos' : (placeChildren pPos children angle0 pos).1
      = pos ++ childEntries pPos children angle0 :=
    placeChildren_fst pPos children angle0 pos hch_fresh hch_nd
  have hkeys' : dictKeys (placeChildren pPos children angle0 pos).1
      = dictKeys pos ++ children.map (·.id) := by
    rw [hpos', dictKeys_append, childEntries_keys]
  -- facts about p and the queues
  have hpK : p.id ∈ dictKeys pos := inv.queue_placed p (List.mem_cons_self p rest)
  have hp_mem : p ∈ modules := inv.queue_mem p (List.mem_cons_self p rest)
  have hqnd := inv.queue_nodup
  rw [List.map_cons, List.nodup_cons] at hqnd
  have hp_not_rest : p.id ∉ rest.map (·.id) := hqnd.1
  have hchids_fresh : ∀ k ∈ children.map (·.id), k ∉ dictKeys pos := by
    intro k hk
    obtain ⟨c, hc, rfl⟩ := List.mem_map.mp hk
    exact hch_fresh c hc
  have hp_not_ch : p.id ∉ children.map (·.id) := fun h => hchids_fresh p.id h hpK
  have hrest_placed : ∀ q ∈ rest, q.id ∈ dictKeys pos :=
    fun q hq => inv.queue_placed q (List.mem_cons_of_mem p hq)
  have hqids' : (rest ++ children).map (·.id) = rest.map (·.id) ++ children.map (·.id) :=
    List.map_append _ rest children
  -- old expanded parents stay expanded
  have hexp_keep : ∀ q : String, q ∈ dictKeys pos → q ∉ (p :: rest).map (·.id) →
      q ∉ (rest ++ children).map (·.id) := by
    intro q hqK hold hnew
    rw [hqids'] at hnew
    rcases List.mem_append.mp hnew with h | h
    · exact hold (by rw [List.map_cons]; exact List.mem_cons_of_mem _ h)
    · exact hchids_fresh q h hqK
  have hp_exp : p.id ∉ (rest ++ children).map (·.id) := by
    intro h
    rw [hqids'] at h
    rcases List.mem_append.mp h with h | h
    · exact hp_not_rest h
    · exact hp_not_ch h
  -- membership in the new keys
  have hmemK' : ∀ k, k ∈ dictKeys (placeChildren pPos children angle0 pos).1
      ↔ k ∈ dictKeys pos ∨ k ∈ children.map (·.id) := by
    intro k
    rw [hkeys']
    exact List.mem_append
  constructor
  · refine ⟨?_, ?_, ?_, ?_, ?_, ?_, ?_, ?_, ?_, ?_, ?_⟩
    · -- keys_nodup
      rw [hkeys', List.nodup_append]
      exact ⟨inv.keys_nodup, hch_nd, fun k hkK hkCh => hchids_fresh k hkCh hkK⟩
    · -- keys_sub
      intro k hk
      rcases (hmemK' k).mp hk with h | h
      · exact inv.keys_sub k h
      · obtain ⟨c, hc, rfl⟩ := List.mem_map.mp h
        exact ⟨c, hch_sub c hc, rfl⟩
    · -- root_pos
      rw [hpos']
      exact dictGet_mono inv.root_pos
    · -- queue_mem
      intro q hq
      rcases List.mem_append.mp hq with h | h
      · exact inv.queue_mem q (List.mem_cons_of_mem p h)
      · exact hch_sub q h
    · -- queue_placed
      intro q hq
      rcases List.mem_append.mp hq with h | h
      · exact (hmemK' q.id).mpr (Or.inl (hrest_placed q h))
      · exact (hmemK' q.id).mpr (Or.inr (List.mem_map_of_mem (·.id) h))
    · -- queue_nodup
      rw [hqids', List.nodup_append]
      refine ⟨hqnd.2, hch_nd, ?_⟩
      intro k hk hck
      exact hchids_fresh k hck (by
        obtain ⟨q, hq, rfl⟩ := List.mem_map.mp hk
        exact hrest_placed q hq)
    · -- sound
      intro k hk
      rcases (hmemK' k).mp hk with h | h
      · exact inv.sound k h
      · obtain ⟨c, hc, rfl⟩ := List.mem_map.mp h
        exact Reaches.child p.id c (inv.sound p.id hpK) (hch_sub c hc) (hch_conn c hc)
    · -- closed
      intro q hq hqK' hq_notq' m hm hconn_m
      rcases (hmemK' q.id).mp hqK' with hqK | hqCh
      · by_cases hqp : q.id = p.id
        · by_cases hmK : m.id ∈ dictKeys pos
          · exact (hmemK' m.id).mpr (Or.inl hmK)
          · have hmch : m ∈ children := by
              rw [hchdef]
              apply List.mem_filter.mpr
              refine ⟨hm, (hand _ _).mpr ⟨?_, ?_⟩⟩
              · exact beq_iff_eq.mpr (by rw [hconn_m, hqp])
              · apply (hnot _).mpr
                rcases hcc : ((dictKeys pos).contains m.id) with _ | _
                · rfl
                · exact absurd (List.elem_iff.mp hcc) hmK
            exact (hmemK' m.id).mpr (Or.inr (List.mem_map_of_mem (·.id) hmch))
        · have hq_old : q.id ∉ (p :: rest).map (·.id) := by
            intro h
            rw [List.map_cons] at h
            rcases List.mem_cons.mp h with h | h
            · exact hqp h
            · exact hq_notq' (by rw [hqids']; exact List.mem_append.mpr (Or.inl h))
          have hmClosed := inv.closed q hq hqK hq_old m hm hconn_m
          exact (hmemK' m.id).mpr (Or.inl hmClosed)
      · exfalso
        exact hq_notq' (by rw [hqids']; exact List.mem_append.mpr (Or.inr hqCh))
    · -- cause
      intro m hm hmK' hm_ne
      rcases (hmemK' m.id).mp hmK' with hmK | hmCh
      · obtain ⟨pid, hconn, hpidK, hpid_old⟩ := inv.cause m hm hmK hm_ne
        exact ⟨pid, hconn, (hmemK' pid).mpr (Or.inl hpidK), hexp_keep pid hpidK hpid_old⟩
      · obtain ⟨c, hc, hcm⟩ := List.mem_map.mp hmCh
        have hcmod := hch_sub c hc
        have hceq : c = m := List.inj_on_of_nodup_map hnodup hcmod hm hcm
        exact ⟨p.id, by rw [← hceq]; exact hch_conn c hc,
          (hmemK' p.id).mpr (Or.inl hpK), hp_exp⟩
    · -- geom
      intro q hq hqK' hq_notq'
      rcases (hmemK' q.id).mp hqK' with hqK | hqCh
      · by_cases hqp : q.id = p.id
        · have hqeq : q = p := List.inj_on_of_nodup_map hnodup hq hp_mem hqp
          subst hqeq
          refine ⟨angle0, pPos, by rw [hpos']; exact dictGet_mono hpp, ?_⟩
          intro k m hk
          rw [← hsib] at hk
          have hmch : m ∈ children := List.getElem?_mem hk
          rw [hpos']
          rw [dictGet_append_right (hch_fresh m hmch)]
          exact childEntries_get pPos children hch_nd angle0 k m hk
        · have hq_old : q.id ∉ (p :: rest).map (·.id) := by
            intro h
            rw [List.map_cons] at h
            rcases List.mem_cons.mp h with h | h
            · exact hqp h
            · exact hq_notq' (by rw [hqids']; exact List.mem_append.mpr (Or.inl h))
          obtain ⟨a0, pv, hpv, hsibs⟩ := inv.geom q hq hqK hq_old
          refine ⟨a0, pv, by rw [hpos']; exact dictGet_mono hpv, ?_⟩
          intro k m hk
          rw [hpos']
          exact dictGet_mono (hsibs k m hk)
      · exfalso
        exact hq_notq' (by rw [hqids']; exact List.mem_append.mpr (Or.inr hqCh))
    · -- flat
      intro e he
      rw [hpos'] at he
      rcases List.mem_append.mp he with h | h
      · exact inv.flat e h
      · exact childEntries_flat pPos children angle0 e h
  · -- measure decrease
    have hlen : children.length
        = modules.countP (fun m => m.connectedToId == some p.id && !((dictKeys pos).contains m.id)) := by
      rw [hchdef, List.countP_eq_length_filter]
    have hcount : modules.countP
          (fun m => !((dictKeys (placeChildren pPos children angle0 pos).1).contains m.id))
        + modules.countP (fun m => m.connectedToId == some p.id && !((dictKeys pos).contains m.id))
        ≤ modules.countP (fun m => !((dictKeys pos).contains m.id)) := by
      apply countP_add_le
      · -- still unplaced implies previously unplaced
        intro m _ hm'
        have h1 := (hnot _).mp hm'
        apply (hnot _).mpr
        rcases hcc : ((dictKeys pos).contains m.id) with _ | _
        · rfl
        · exfalso
          have hmem : m.id ∈ dictKeys (placeChildren pPos children angle0 pos).1 :=
            (hmemK' m.id).mpr (Or.inl (List.elem_iff.mp hcc))
          have h3 : ((dictKeys (placeChildren pPos children angle0 pos).1).contains m.id) = true :=
            List.elem_iff.mpr hmem
          rw [h1] at h3
          exact Bool.noConfusion h3
      · -- batch members were unplaced
        intro m _ hm'
        exact ((hand _ _).mp hm').2
      · -- batch members are no longer unplaced
        intro m hm hqr
        obtain ⟨hm1, hm2⟩ := hqr
        have hmch : m ∈ children := by
          rw [hchdef]
          exact List.mem_filter.mpr ⟨hm, hm2⟩
        have hmem : m.id ∈ dictKeys (placeChildren pPos children angle0 pos).1 :=
          (hmemK' m.id).mpr (Or.inr (List.mem_map_of_mem (·.id) hmch))
        have h1 := (hnot _).mp hm1
        have h3 : ((dictKeys (placeChildren pPos children angle0 pos).1).contains m.id) = true :=
          List.elem_iff.mpr hmem
        rw [h1] at h3
        exact Bool.noConfusion h3
    unfold countUnplaced
    rw [List.length_append, List.length_cons]
    omega

/-- Runs of the layout loop with sufficient fuel drain the queue and
preserve the invariant. -/
theorem bfs_run (seed : String → ℝ) (modules : List HabitatModule) (root : HabitatModule)
    (hnodup : (modules.map (·.id)).Nodup) :
    ∀ (fuel : ℕ) (queue : List HabitatModule) (pos : List (String × Vec3))
      (cur : List (String × ℝ)),
      BfsInv modules root queue pos →
      queue.length + countUnplaced modules pos ≤ fuel →
      BfsInv modules root [] (bfsAux seed modules fuel queue pos cur) := by
  intro fuel
  induction fuel with
  | zero =>
      intro queue pos cur inv hmeasure
      have hq : queue = [] := by
        cases queue with
        | nil => rfl
        | cons a as => simp [List.length_cons] at hmeasure
      subst hq
      exact inv
  | succ fuel ih =>
      intro queue pos cur inv hmeasure
      cases queue with
      | nil => exact inv
      | cons p rest =>
          have hpK : p.id ∈ dictKeys pos := inv.queue_placed p (List.mem_cons_self p rest)
          obtain ⟨pPos, hpp⟩ := Option.isSome_iff_exists.mp (dictGet_isSome_of_mem hpK)
          have hstep := bfs_step modules root p rest pos hnodup inv pPos hpp
            ((dictGet cur p.id).getD (seed p.id))
          show BfsInv modules root [] (bfsAux seed modules (fuel + 1) (p :: rest) pos cur)
          simp only [bfsAux]
          rw [hpp]
          simp only [Option.getD_some]
          apply ih
          · exact hstep.1
          · have h2 := hstep.2
            rw [List.length_cons] at h2 hmeasure
            omega

/-! ## Claim theorems: habitat layout -/

/-- C2: on a habitat graph with unique module ids, the layout produces a
position exactly for every module id reachable from the chosen root
(unreachable modules are omitted, never an error), places each id at most
once, puts the root at the origin, places every placed non-root module at
Euclidean distance 4 from its parent's position at the parent's height
(all heights are 0 — no vertical stacking), advances each parent's angular
cursor by sixty degrees per child placed in its breadth-first expansion,
and — when every module is reachable from the root — returns exactly N
positions for N modules. -/
theorem layout_correct (seed : String → ℝ) (modules : List HabitatModule)
    (root : HabitatModule) (hroot : rootOf modules = some root)
    (hnodup : (modules.map (·.id)).Nodup) :
    (∀ k, k ∈ dictKeys (layout seed modules) ↔ Reaches modules root.id k) ∧
    (dictKeys (layout seed modules)).Nodup ∧
    dictGet (layout seed modules) root.id = some origin ∧
    (∀ m ∈ modules, m.id ∈ dictKeys (layout seed modules) → m.id ≠ root.id →
      ∃ pid pv v, m.connectedToId = some pid ∧
        dictGet (layout seed modules) pid = some pv ∧
        dictGet (layout seed modules) m.id = some v ∧
        Real.sqrt ((v.x - pv.x) ^ 2 + (v.y - pv.y) ^ 2 + (v.z - pv.z) ^ 2) = 4 ∧
        v.y = pv.y) ∧
    (∀ p ∈ modules, p.id ∈ dictKeys (layout seed modules) →
      ∃ angle0 pv, dictGet (layout seed modules) p.id = some pv ∧
        ∀ (k : ℕ) (m : HabitatModule), (siblings modules root.id p)[k]? = some m →
          dictGet (layout seed modules) m.id
            = some (childPoint pv (angle0 + (k : ℝ) * (Real.pi / 3)))) ∧
    ((∀ m ∈ modules, Reaches modules root.id m.id) →
      (dictKeys (layout seed modules)).length = modules.length) := by
  have hlay : layout seed modules
      = bfsAux seed modules (modules.length + 1) [root] [(root.id, origin)] [] := by
    unfold layout
    rw [hroot]
  have hmeasure0 : ([root] : List HabitatModule).length
      + countUnplaced modules [(root.id, origin)] ≤ modules.length + 1 := by
    have hc := List.countP_le_length
      (fun m => !((dictKeys [(root.id, origin)]).contains m.id)) (l := modules)
    unfold countUnplaced
    simp only [List.length_cons, List.length_nil]
    omega
  have hfin : BfsInv modules root [] (layout seed modules) := by
    rw [hlay]
    exact bfs_run seed modules root hnodup (modules.length + 1) [root] [(root.id, origin)] []
      (bfs_init modules root hroot) hmeasure0
  have hcomplete : ∀ k, Reaches modules root.id k → k ∈ dictKeys (layout seed modules) := by
    intro k hk
    induction hk with
    | root => exact mem_dictKeys_of_dictGet hfin.root_pos
    | child pid m hp hm hc ih =>
        obtain ⟨q, hq, hqid⟩ := hfin.keys_sub pid ih
        exact hfin.closed q hq (hqid ▸ ih) (by simp) m hm (by rw [hqid]; exact hc)
  refine ⟨?_, hfin.keys_nodup, hfin.root_pos, ?_, ?_, ?_⟩
  · intro k
    exact ⟨hfin.sound k, hcomplete k⟩
  · -- distance-4, same-height placement relative to the parent
    intro m hm hmK hm_ne
    obtain ⟨pid, hconn, hpidK, _⟩ := hfin.cause m hm hmK hm_ne
    obtain ⟨q, hq, hqid⟩ := hfin.keys_sub pid hpidK
    obtain ⟨a0, pv, hpv, hsibs⟩ := hfin.geom q hq (hqid ▸ hpidK) (by simp)
    have hmsib : m ∈ siblings modules root.id q := by
      unfold siblings
      apply List.mem_filter.mpr
      refine ⟨hm, ?_⟩
      have hb1 : (m.connectedToId == some q.id) = true :=
        beq_iff_eq.mpr (by rw [hconn, hqid])
      have hb2 : (m.id != root.id) = true := bne_iff_ne.mpr hm_ne
      rw [hb1, hb2]
      rfl
    obtain ⟨k, hk⟩ := List.getElem?_of_mem hmsib
    have hv := hsibs k m hk
    have hpvy : pv.y = 0 := hfin.flat (q.id, pv) (dictGet_mem hpv)
    refine ⟨pid, pv, childPoint pv (a0 + (k : ℝ) * (Real.pi / 3)),
      hconn, by rw [← hqid]; exact hpv, hv, ?_, ?_⟩
    · have hsum : ((childPoint pv (a0 + (k : ℝ) * (Real.pi / 3))).x - pv.x) ^ 2
          + ((childPoint pv (a0 + (k : ℝ) * (Real.pi / 3))).y - pv.y) ^ 2
          + ((childPoint pv (a0 + (k : ℝ) * (Real.pi / 3))).z - pv.z) ^ 2 = 16 := by
        have hsc := Real.sin_sq_add_cos_sq (a0 + (k : ℝ) * (Real.pi / 3))
        simp only [childPoint, hpvy]
        linear_combination (16 : ℝ) * hsc
      rw [hsum]
      rw [show (16 : ℝ) = 4 ^ 2 by norm_num]
      exact Real.sqrt_sq (by norm_num)
    · rw [hpvy]
      rfl
  · -- sixty-degree sibling fan per parent
    intro q hq hqK
    exact hfin.geom q hq hqK (by simp)
  · -- full coverage: N positions for N modules
    intro hall
    have hiff : ∀ k, k ∈ dictKeys (layout seed modules) ↔ k ∈ modules.map (·.id) := by
      intro k
      constructor
      · intro hk
        obtain ⟨m, hm, hmid⟩ := hfin.keys_sub k hk
        exact hmid ▸ List.mem_map_of_mem (·.id) hm
      · intro hk
        obtain ⟨m, hm, rfl⟩ := List.mem_map.mp hk
        exact hcomplete m.id (hall m hm)
    have hfs : (dictKeys (layout seed modules)).toFinset = (modules.map (·.id)).toFinset := by
      ext k
      simp only [List.mem_toFinset]
      exact hiff k
    calc (dictKeys (layout seed modules)).length
        = (dictKeys (layout seed modules)).toFinset.card :=
          (List.toFinset_card_of_nodup hfin.keys_nodup).symm
      _ = (modules.map (·.id)).toFinset.card := by rw [hfs]
      _ = (modules.map (·.id)).length := List.toFinset_card_of_nodup hnodup
      _ = modules.length := List.length_map modules (·.id)

/-- Witness for C2 on the concrete two-module habitat with starting angle
zero everywhere. -/
theorem layout_correct_witness :
    dictGet (layout (fun _ => (0 : ℝ)) twoModuleHabitat) shuttleModule.id = some origin ∧
    ("biodome-1" ∈ dictKeys (layout (fun _ => (0 : ℝ)) twoModuleHabitat)
      ↔ Reaches twoModuleHabitat shuttleModule.id "biodome-1") ∧
    ((∀ m ∈ twoModuleHabitat, Reaches twoModuleHabitat shuttleModule.id m.id) →
      (dictKeys (layout (fun _ => (0 : ℝ)) twoModuleHabitat)).length
        = twoModuleHabitat.length) :=
  ⟨(layout_correct (fun _ => 0) twoModuleHabitat shuttleModule (by decide) (by decide)).2.2.1,
   (layout_correct (fun _ => 0) twoModuleHabitat shuttleModule (by decide) (by decide)).1 "biodome-1",
   (layout_correct (fun _ => 0) twoModuleHabitat shuttleModule (by decide) (by decide)).2.2.2.2.2⟩

/-- C3 (counterexample): the starting angle of each parent's cursor comes
from `Math.random()`, so layout is not a function of the graph alone: with
draw 0 the biodome lands at `(4, 0, 0)`, with draw π (both possible values
of `Math.random() * Math.PI * 2`) it lands at `(-4, 0, 0)`.  Two layout
computations on the unchanged graph can therefore disagree. -/
theorem layout_random_dependence :
    dictGet (layout (fun _ => (0 : ℝ)) twoModuleHabitat) "biodome-1"
      ≠ dictGet (layout (fun _ => Real.pi) twoModuleHabitat) "biodome-1" := by
  have h1 : dictGet (layout (fun _ => (0 : ℝ)) twoModuleHabitat) "biodome-1"
      = some (childPoint origin 0) := rfl
  have h2 : dictGet (layout (fun _ => Real.pi) twoModuleHabitat) "biodome-1"
      = some (childPoint origin Real.pi) := rfl
  rw [h1, h2]
  intro h
  have hx := congrArg (fun o => (o.getD origin).x) h
  simp only [Option.getD_some, childPoint] at hx
  rw [Real.cos_zero, Real.cos_pi] at hx
  norm_num at hx

/-- C3 (amended): layout is a deterministic function of the graph together
with the drawn starting angles: two computations whose per-module draws
agree on every module id yield identical positions.  Determinism in the
graph alone fails (see the counterexample); within one React mount the
`useMemo` cache returns the same positions for an unchanged `modules`
reference, but recomputation draws fresh angles. -/
theorem layout_seed_determinism (seed1 seed2 : String → ℝ) (modules : List HabitatModule)
    (h : ∀ m ∈ modules, seed1 m.id = seed2 m.id) :
    layout seed1 modules = layout seed2 modules := by
  have haux : ∀ (fuel : ℕ) (queue : List HabitatModule) (pos : List (String × Vec3))
      (cur : List (String × ℝ)), (∀ p ∈ queue, p ∈ modules) →
      bfsAux seed1 modules fuel queue pos cur = bfsAux seed2 modules fuel queue pos cur := by
    intro fuel
    induction fuel with
    | zero => intro queue pos cur _; rfl
    | succ fuel ih =>
        intro queue pos cur hqm
        cases queue with
        | nil => rfl
        | cons p rest =>
            show bfsAux seed1 modules (fuel + 1) (p :: rest) pos cur
              = bfsAux seed2 modules (fuel + 1) (p :: rest) pos cur
            simp only [bfsAux]
            rw [h p (hqm p (List.mem_cons_self p rest))]
            apply ih
            intro q hq
            rcases List.mem_append.mp hq with hq | hq
            · exact hqm q (List.mem_cons_of_mem p hq)
            · exact List.mem_of_mem_filter hq
  unfold layout
  cases hroot : rootOf modules with
  | none => rfl
  | some root =>
      exact haux (modules.length + 1) [root] [(root.id, origin)] []
        (fun p hp => by
          have : p = root := by simpa using hp
          rw [this]
          exact rootOf_mem hroot)

/-- Witness for C3's amended theorem: two seed oracles that agree on the
two module ids (but differ elsewhere) lay the habitat out identically. -/
theorem layout_seed_determinism_witness :
    layout (fun s => if (s == "probe-9") = true then (1 : ℝ) else 0) twoModuleHabitat
      = layout (fun _ => (0 : ℝ)) twoModuleHabitat :=
  layout_seed_determinism _ _ twoModuleHabitat (by
    intro m hm
    fin_cases hm <;> rw [if_neg (by decide)])

/-- Witness for C7's amended theorem on a concrete fenced reply. -/
theorem parse_reply_behavior_witness :
    stripFence ("```json\n" ++ "payload" ++ "\n```") = "payload" ∧
    parseStoryReply (fun _ => (some 7 : Option Nat)) ("```json\n" ++ "payload" ++ "\n```")
      = Except.ok 7 ∧
    parseStoryReply (fun _ => (none : Option Nat)) ("```json\n" ++ "payload" ++ "\n```")
      = Except.error formatErrorMessage :=
  ⟨(parse_reply_behavior (fun _ => (some 7 : Option Nat)) "payload" (by decide)).1,
   (parse_reply_behavior (fun _ => (some 7 : Option Nat)) "payload" (by decide)).2.1 7 rfl,
   (parse_reply_behavior (fun _ => (none : Option Nat)) "payload" (by decide)).2.2 rfl⟩

end SettlersOfMars
